import Mathlib

/-!
Verification of the MemoryRelay MCP server's API client (src/client.ts) and
the MCP server's sanitization layer (src/server.ts).

Modelling conventions (shallow embedding):
* A JavaScript string is modelled as a `List Char` of Unicode scalar values.
  JavaScript's `String.prototype.length` counts UTF-16 code units; for a
  well-formed string this is the sum over its scalars of 1 (BMP) or 2
  (astral), computed by `jsLength` below.
* `message.replace(new RegExp(apiKey, 'g'), masked)` is modelled as literal,
  left-to-right, non-overlapping global replacement (`replJS`).  This is
  exactly what the JavaScript code does whenever the key contains no regular
  expression metacharacters and the replacement contains no `$` patterns;
  all concrete inputs used below stay inside that fragment.
* Asynchronous operations are modelled as values; the retry loop of
  `withRetry` receives the outcome of the i-th invocation of the wrapped
  operation from a sequence `fn : Nat -> Except (List Char) T`.  A thrown
  `Error` is an `Except.error` carrying its message.
* One `fetch` attempt inside `MemoryRelayClient.request` is abstracted by a
  `FetchOutcome` (success, non-ok HTTP status, 429 rate limit, abort/timeout,
  network error); `attemptRun` maps it to the value returned or the message
  thrown by one iteration of the function wrapped in `withRetry`, including
  the key-masking applied on each error path of client.ts lines 109-142.
-/

/-- JS-style prefix test: does `hay` start with `needle`?  (Bool version of
`List.IsPrefix`, used so that the retry classifier is executable.) -/
def startsWith : List Char → List Char → Bool
  | [], _ => true
  | _ :: _, [] => false
  | a :: as, b :: bs => a == b && startsWith as bs

/-- JS `String.prototype.includes`: contiguous-substring test. -/
def isSubOf (needle : List Char) : List Char → Bool
  | [] => List.isEmpty needle
  | c :: t => startsWith needle (c :: t) || isSubOf needle t

/-- Worker for `replJS`: scans the text left to right; `skip > 0` means the
scanner is inside an already-replaced match and the character is consumed
without being emitted. -/
def replAux (k r : List Char) : ℕ → List Char → List Char
  | _, [] => []
  | n + 1, _ :: t => replAux k r n t
  | 0, c :: t =>
    if startsWith k (c :: t) && !(List.isEmpty k) then
      r ++ replAux k r (k.length - 1) t
    else
      c :: replAux k r 0 t

/-- Literal global replacement, the semantics of
`text.replace(new RegExp(pat, 'g'), r)` for a metacharacter-free pattern:
each leftmost, non-overlapping occurrence of `k` is replaced by `r`. -/
def replJS (k r s : List Char) : List Char :=
  replAux k r 0 s

/-- The fixed mask marker appended by `maskApiKey` (client.ts line 65). -/
def star3 : List Char := ['*', '*', '*']

/-- client.ts lines 63-67: `maskApiKey(message, apiKey)` replaces every
occurrence of the key by its first 8 characters followed by `***`; an empty
key returns the message unchanged. -/
def maskApiKey (message apiKey : List Char) : List Char :=
  if List.isEmpty apiKey then message
  else replJS apiKey (List.take 8 apiKey ++ star3) message

/-- The decimal digit character for `d` (0-9). -/
def digitChar (d : ℕ) : Char :=
  Char.ofNat (48 + d)

/-- Fuelled decimal rendering of a natural number (fuel bounds the digit
count; `natDigits` supplies ample fuel). -/
def natDigitsAux : ℕ → ℕ → List Char
  | 0, _ => []
  | fz + 1, n =>
    if n < 10 then [digitChar n]
    else natDigitsAux fz (n / 10) ++ [digitChar (n % 10)]

/-- Decimal rendering of a natural number, as JS template literals render
a nonnegative integer. -/
def natDigits (n : ℕ) : List Char :=
  natDigitsAux (n + 1) n

/-- Rendering of an integer as a JS template literal renders it. -/
def intToChars (i : ℤ) : List Char :=
  if i < 0 then '-' :: natDigits i.natAbs else natDigits i.toNat

/-- Whitespace skipped by JS `parseInt` (space, tab, LF, CR suffice here). -/
def jsWhitespace (c : Char) : Bool :=
  c == ' ' || c == Char.ofNat 9 || c == Char.ofNat 10 || c == Char.ofNat 13

/-- Hexadecimal digit test for the `0x` branch of `parseInt`. -/
def isHexDig (c : Char) : Bool :=
  c.isDigit || ('a' ≤ c && c ≤ 'f') || ('A' ≤ c && c ≤ 'F')

/-- Numeric value of a hexadecimal digit character. -/
def hexVal (c : Char) : ℕ :=
  if c.isDigit then c.toNat - 48
  else if 'a' ≤ c then c.toNat - 87
  else c.toNat - 55

/-- Value of a string of decimal digit characters. -/
def decToNat (l : List Char) : ℕ :=
  l.foldl (fun a c => a * 10 + (c.toNat - 48)) 0

/-- Value of a string of hexadecimal digit characters. -/
def hexToNat (l : List Char) : ℕ :=
  l.foldl (fun a c => a * 16 + hexVal c) 0

/-- JS `parseInt(s)` with radix undefined: skip whitespace, optional sign,
`0x`/`0X` selects base 16, otherwise leading decimal digits; `none` models
`NaN` (no digits found). -/
def jsParseInt (s : List Char) : Option ℤ :=
  let s1 := s.dropWhile jsWhitespace
  let sign : ℤ := match s1 with | '-' :: _ => -1 | _ => 1
  let s2 := match s1 with | '-' :: t => t | '+' :: t => t | _ => s1
  match s2 with
  | '0' :: 'x' :: t =>
    let ds := t.takeWhile isHexDig
    if List.isEmpty ds then none else some (sign * hexToNat ds)
  | '0' :: 'X' :: t =>
    let ds := t.takeWhile isHexDig
    if List.isEmpty ds then none else some (sign * hexToNat ds)
  | _ =>
    let ds := s2.takeWhile Char.isDigit
    if List.isEmpty ds then none else some (sign * decToNat ds)

/-- UTF-16 code units occupied by one Unicode scalar (JS `length` counts
these). -/
def utf16Units (c : Char) : ℕ :=
  if c.toNat < 65536 then 1 else 2

/-- JS `String.prototype.length` of a well-formed string. -/
def jsLength (s : List Char) : ℕ :=
  (s.map utf16Units).sum

/-- UTF-8 bytes occupied by one Unicode scalar. -/
def utf8Bytes (c : Char) : ℕ :=
  if c.toNat < 128 then 1
  else if c.toNat < 2048 then 2
  else if c.toNat < 65536 then 3
  else 4

/-- Size of the UTF-8 encoding of a string, in bytes. -/
def utf8ByteSize (s : List Char) : ℕ :=
  (s.map utf8Bytes).sum

/-- client.ts line 16: `MAX_RETRIES = 3`. -/
def MAX_RETRIES : ℕ := 3

/-- client.ts line 18: `MAX_CONTENT_SIZE = 50 * 1024`. -/
def MAX_CONTENT_SIZE : ℕ := 50 * 1024

/-- client.ts lines 36-41: an error is not retried when its MESSAGE contains
one of the substrings "401", "403", "404", "400" (checked in that order). -/
def nonRetryable (msg : List Char) : Bool :=
  isSubOf "401".toList msg || isSubOf "403".toList msg ||
    isSubOf "404".toList msg || isSubOf "400".toList msg

/-- client.ts lines 70-78: the configuration held by `MemoryRelayClient`
(`timeout` in milliseconds). -/
structure ClientConfig where
  apiKey : List Char
  apiUrl : List Char
  agentId : List Char
  timeout : ℕ

/-- Abstraction of what one `fetch` inside `request` produces: a parsed JSON
success value, a non-ok status (with statusText and the optional `message`
field of the parsed error body; `none` also covers an unparsable body), a
429 with the raw `Retry-After` header (`none` when absent), an abort fired
by the timeout, or any other rejection (network error) with its message. -/
inductive FetchOutcome (T : Type) where
  | success (data : T)
  | httpError (status : ℕ) (statusText : List Char) (errMessage : Option (List Char))
  | rateLimited (retryAfter : Option (List Char))
  | abortError
  | networkError (msg : List Char)

/-- client.ts lines 119-121: `"API request failed: <status> <statusText>"`
plus `" - <message>"` when the error body's `message` field is truthy. -/
def apiErrorMessage (status : ℕ) (statusText : List Char)
    (errMessage : Option (List Char)) : List Char :=
  "API request failed: ".toList ++ natDigits status ++ [' '] ++ statusText ++
    (match errMessage with
      | some m => if List.isEmpty m then [] else " - ".toList ++ m
      | none => [])

/-- client.ts line 113: `retryAfter ? parseInt(retryAfter) * 1000 : 5000`.
`none` is NaN (header present but unparsable); an absent or empty (falsy)
header yields the 5000 ms fallback. -/
def rateLimitWaitMs (retryAfter : Option (List Char)) : Option ℤ :=
  match retryAfter with
  | none => some 5000
  | some s =>
    if List.isEmpty s then some 5000
    else
      match jsParseInt s with
      | some n => some (n * 1000)
      | none => none

/-- What `setTimeout` actually waits given the computed delay: NaN and
negative delays are clamped to 0. -/
def effectiveSleepMs (w : Option ℤ) : ℤ :=
  match w with
  | none => 0
  | some n => max n 0

/-- client.ts line 116: `"Rate limited: 429 - Retry after <waitMs>ms"`,
rendering NaN the way a template literal does. -/
def rateLimitMessage (retryAfter : Option (List Char)) : List Char :=
  "Rate limited: 429 - Retry after ".toList ++
    (match rateLimitWaitMs retryAfter with
      | some n => intToChars n
      | none => "NaN".toList) ++ "ms".toList

/-- client.ts line 134: `"Request timeout after <timeout>ms"`. -/
def timeoutMessage (timeout : ℕ) : List Char :=
  "Request timeout after ".toList ++ natDigits timeout ++ "ms".toList

variable {T : Type}

/-- One iteration of the function `request` passes to `withRetry`
(client.ts lines 89-143): the message raised for each failure shape,
including the masking applied on each path.  A non-ok non-429 status throws
the masked API message at line 124, which the catch at line 131 masks a
second time; a 429 throws at line 116 and is masked once by the catch; an
abort is converted at line 134 to the timeout message (not masked); any
other rejection is masked once. -/
def attemptRun (cfg : ClientConfig) : FetchOutcome T → Except (List Char) T
  | .success d => .ok d
  | .httpError status statusText errMessage =>
    .error (maskApiKey (maskApiKey (apiErrorMessage status statusText errMessage)
      cfg.apiKey) cfg.apiKey)
  | .rateLimited retryAfter =>
    .error (maskApiKey (rateLimitMessage retryAfter) cfg.apiKey)
  | .abortError => .error (timeoutMessage cfg.timeout)
  | .networkError m => .error (maskApiKey m cfg.apiKey)

/-- client.ts lines 29-55, the retry loop.  `attempt` is the loop index,
`left` the number of loop iterations remaining after this one (so `left = 0`
exactly when `attempt === retries`), `calls` the invocations so far.  The
pair returned is (result, total invocations of the wrapped operation). -/
def withRetryGo (fn : ℕ → Except (List Char) T) (attempt left calls : ℕ) :
    Except (List Char) T × ℕ :=
  match fn attempt with
  | .ok v => (.ok v, calls + 1)
  | .error e =>
    if nonRetryable e then (.error e, calls + 1)
    else
      match left with
      | 0 => (.error e, calls + 1)
      | l + 1 => withRetryGo fn (attempt + 1) l (calls + 1)

/-- client.ts lines 23-58: `withRetry(fn, retries)` starting at attempt 0. -/
def withRetryN (fn : ℕ → Except (List Char) T) (retries : ℕ) :
    Except (List Char) T × ℕ :=
  withRetryGo fn 0 retries 0

/-- `withRetry(fn)` with the default retry budget `MAX_RETRIES`. -/
def withRetry (fn : ℕ → Except (List Char) T) : Except (List Char) T × ℕ :=
  withRetryN fn MAX_RETRIES

/-- client.ts line 90: the URL is the configured base URL concatenated with
the path. -/
def requestUrl (apiUrl path : List Char) : List Char :=
  apiUrl ++ path

/-- `MemoryRelayClient.request` (client.ts lines 84-144): the retry wrapper
around single attempts, where `outcomes i` is what the i-th fetch produces.
Returns the overall result and the number of network attempts. -/
def request (cfg : ClientConfig) (outcomes : ℕ → FetchOutcome T) :
    Except (List Char) T × ℕ :=
  withRetry (fun i => attemptRun cfg (outcomes i))

/-- client.ts line 151: the size-limit failure message
`"Content exceeds maximum size of <MAX_CONTENT_SIZE> bytes"`. -/
def sizeErrorMessage : List Char :=
  "Content exceeds maximum size of ".toList ++ natDigits MAX_CONTENT_SIZE ++
    " bytes".toList

/-- client.ts lines 149-153: `validateContentSize` throws when
`content.length` (UTF-16 code units) exceeds `MAX_CONTENT_SIZE`. -/
def validateContentSize (content : List Char) : Except (List Char) Unit :=
  if MAX_CONTENT_SIZE < jsLength content then .error sizeErrorMessage
  else .ok ()

/-- client.ts lines 158-166: `storeMemory` validates the content size, then
performs the request; a validation failure is raised before any network
attempt (0 attempts). -/
def storeMemory (cfg : ClientConfig) (content : List Char)
    (outcomes : ℕ → FetchOutcome T) : Except (List Char) T × ℕ :=
  match validateContentSize content with
  | .error e => (.error e, 0)
  | .ok _ => request cfg outcomes

/-- client.ts lines 171-184: `searchMemories` validates the query size, then
performs the request. -/
def searchMemories (cfg : ClientConfig) (query : List Char)
    (outcomes : ℕ → FetchOutcome T) : Except (List Char) T × ℕ :=
  match validateContentSize query with
  | .error e => (.error e, 0)
  | .ok _ => request cfg outcomes

/-- client.ts lines 206-217: `updateMemory` validates the new content size,
then performs the request. -/
def updateMemory (cfg : ClientConfig) (id content : List Char)
    (outcomes : ℕ → FetchOutcome T) : Except (List Char) T × ℕ :=
  match validateContentSize content with
  | .error e => (.error e, 0)
  | .ok _ => request cfg outcomes

/-- client.ts lines 229-241: `createEntity` validates the name size, then
performs the request. -/
def createEntity (cfg : ClientConfig) (name : List Char)
    (outcomes : ℕ → FetchOutcome T) : Except (List Char) T × ℕ :=
  match validateContentSize name with
  | .error e => (.error e, 0)
  | .ok _ => request cfg outcomes

/-- client.ts line 161: method and path of the store request,
`this.request('POST', '/v1/memories/memories', ...)`. -/
def storeMemoryMethodPath : List Char × List Char :=
  ("POST".toList, "/v1/memories/memories".toList)

/-- client.ts line 288: method and path of the health-check request,
`this.request('GET', '/v1/health')`. -/
def healthCheckMethodPath : List Char × List Char :=
  ("GET".toList, "/v1/health".toList)

/-- The structured value returned by `healthCheck`. -/
structure HealthStatus where
  status : List Char
  message : List Char

/-- client.ts lines 285-300: `healthCheck` performs the request and converts
any failure into `{status: "unhealthy", message: "API connection failed: " +
msg}` instead of raising; success yields `{status: "healthy", ...}`. -/
def healthCheck (cfg : ClientConfig) (outcomes : ℕ → FetchOutcome T) :
    HealthStatus :=
  match (request cfg outcomes).1 with
  | .ok _ => ⟨"healthy".toList, "API connection successful".toList⟩
  | .error e => ⟨"unhealthy".toList, "API connection failed: ".toList ++ e⟩

/-- server.ts lines 19-27 model a single `.replace(/c/g, r)` stage with a
one-character pattern: character-wise expansion. -/
def replaceChar (c : Char) (r : List Char) : List Char → List Char
  | [] => []
  | x :: t => (if x == c then r else [x]) ++ replaceChar c r t

/-- The apostrophe character escaped by `sanitizeHtml`. -/
def apos : Char := Char.ofNat 39

/-- The double-quote character escaped by `sanitizeHtml`. -/
def dquote : Char := Char.ofNat 34

/-- server.ts lines 19-27: `sanitizeHtml` HTML-encodes `&`, `<`, `>`, `"`,
`'` and `/` in that order. -/
def sanitizeHtml (s : List Char) : List Char :=
  replaceChar '/' "&#x2F;".toList
    (replaceChar apos "&#x27;".toList
      (replaceChar dquote "&quot;".toList
        (replaceChar '>' "&gt;".toList
          (replaceChar '<' "&lt;".toList
            (replaceChar '&' "&amp;".toList s)))))

/-- server.ts lines 365-371: the zod bound on the `entity_create` name,
`z.string().min(1).max(200)` (JS length, i.e. UTF-16 code units), checked
BEFORE the name is escaped by `sanitizeHtml`. -/
def entityNameValidate (name : List Char) : Bool :=
  decide (1 ≤ jsLength name) && decide (jsLength name ≤ 200)

/-- The configuration used by the repository's own tests
(tests/client.test.ts lines 17-22). -/
def cfgTest : ClientConfig :=
  ⟨"mem_test_1234567890abcdef".toList, "https://api.memoryrelay.net".toList,
    "test-agent".toList, 5000⟩

/-- The tests' configuration with a 4040 ms timeout (a perfectly legal
value a user can set through the `timeout` option). -/
def cfg4040 : ClientConfig :=
  ⟨"mem_test_1234567890abcdef".toList, "https://api.memoryrelay.net".toList,
    "test-agent".toList, 4040⟩

/-- A configuration whose API key has exactly 8 characters. -/
def cfgShort : ClientConfig :=
  ⟨"secret12".toList, "https://api.memoryrelay.net".toList,
    "test-agent".toList, 5000⟩

/-- A 200-character entity name consisting only of slashes: it passes the
1..200 length validation, then sextuples under escaping. -/
def slashName : List Char := List.replicate 200 '/'

/-- Content of exactly MAX_CONTENT_SIZE UTF-16 code units. -/
def content50k : List Char := List.replicate 51200 'a'

/-- Content of MAX_CONTENT_SIZE + 1 UTF-16 code units. -/
def content50k1 : List Char := List.replicate 51201 'a'

/-- 51200 copies of U+4E00: 51200 UTF-16 code units but 153600 UTF-8
bytes. -/
def cjkBig : List Char := List.replicate 51200 (Char.ofNat 19968)

lemma startsWith_iff (k s : List Char) : startsWith k s = true ↔ k <+: s := by
  induction k generalizing s with
  | nil => simp [startsWith]
  | cons a as ih =>
    cases s with
    | nil => simp [startsWith]
    | cons b bs =>
      simp [startsWith, List.cons_prefix_cons, ih, Bool.and_eq_true, beq_iff_eq]

lemma isSubOf_iff (n h : List Char) : isSubOf n h = true ↔ n <:+: h := by
  induction h with
  | nil =>
    simp [isSubOf, List.isEmpty_iff]
  | cons c t ih =>
    rw [isSubOf, List.infix_cons_iff, Bool.or_eq_true, startsWith_iff, ih]

lemma isSubOf_append_left (n a b : List Char) (h : isSubOf n a = true) :
    isSubOf n (a ++ b) = true := by
  rw [isSubOf_iff] at h ⊢
  obtain ⟨x, y, hx⟩ := h
  exact ⟨x, y ++ b, by rw [← hx]; simp⟩

lemma replAux_skip (k r : List Char) :
    ∀ (t : List Char) (n : ℕ), replAux k r n t = replAux k r 0 (t.drop n) := by
  intro t
  induction t with
  | nil => intro n; cases n <;> simp [replAux]
  | cons c t ih =>
    intro n
    cases n with
    | zero => simp
    | succ m => simpa [replAux] using ih m

lemma replJS_nil (k r : List Char) : replJS k r [] = [] := rfl

lemma replJS_pos (k r : List Char) (c : Char) (t : List Char) (hne : k ≠ [])
    (hp : k <+: c :: t) :
    replJS k r (c :: t) = r ++ replJS k r (t.drop (k.length - 1)) := by
  have hb : startsWith k (c :: t) = true := (startsWith_iff _ _).2 hp
  have he : List.isEmpty k = false := by
    cases k with
    | nil => exact absurd rfl hne
    | cons x xs => rfl
  show replAux k r 0 (c :: t) = r ++ replJS k r (t.drop (k.length - 1))
  rw [replAux, if_pos (by rw [hb, he]; rfl), replAux_skip]
  rfl

lemma replJS_neg (k r : List Char) (c : Char) (t : List Char)
    (h : (startsWith k (c :: t) && !(List.isEmpty k)) = false) :
    replJS k r (c :: t) = c :: replJS k r t := by
  show replAux k r 0 (c :: t) = c :: replAux k r 0 t
  rw [replAux, if_neg (by rw [h]; exact Bool.false_ne_true)]

lemma startsWith_false_of_not_pre (k : List Char) (c : Char) (t : List Char)
    (hp : ¬ k <+: c :: t) :
    (startsWith k (c :: t) && !(List.isEmpty k)) = false := by
  have : startsWith k (c :: t) = false := by
    cases hsw : startsWith k (c :: t) with
    | false => rfl
    | true => exact absurd ((startsWith_iff _ _).1 hsw) hp
  rw [this, Bool.false_and]

lemma prefixTotal {l₁ l₂ l₃ : List Char} (h1 : l₁ <+: l₃) (h2 : l₂ <+: l₃) :
    l₁ <+: l₂ ∨ l₂ <+: l₁ := by
  rcases Nat.le_total l₁.length l₂.length with h | h
  · exact Or.inl (List.prefix_of_prefix_length_le h1 h2 h)
  · exact Or.inr (List.prefix_of_prefix_length_le h2 h1 h)

lemma infixAppendCases (k : List Char) :
    ∀ (u X : List Char), k <:+: u ++ X →
      (∃ y, y <:+ u ∧ k <+: y ++ X) ∨ k <:+: X := by
  intro u
  induction u with
  | nil => intro X h; exact Or.inr (by simpa using h)
  | cons a u' ih =>
    intro X h
    rcases List.infix_cons_iff.1 h with hp | hi
    · exact Or.inl ⟨a :: u', List.suffix_rfl, by simpa using hp⟩
    · rcases ih X hi with ⟨y, hy, hk⟩ | h2
      · exact Or.inl ⟨y, hy.trans (List.suffix_cons a u'), hk⟩
      · exact Or.inr h2

lemma take8_len {k : List Char} (hk8 : 8 < k.length) : (k.take 8).length = 8 := by
  rw [List.length_take]
  omega

lemma replJS_prefix_structure (k : List Char) (hk8 : 8 < k.length) :
    ∀ (s t : List Char), '*' ∉ t →
      t <+: replJS k (k.take 8 ++ star3) s →
      t <+: s ∨
        ∃ u v w, t = u ++ v ∧ s = u ++ w ∧ k <+: w ∧ v <+: k.take 8 ∧ v ≠ [] := by
  have hkne : k ≠ [] := by
    intro h
    rw [h] at hk8
    simp at hk8
  suffices H : ∀ (n : ℕ) (s t : List Char), s.length ≤ n → '*' ∉ t →
      t <+: replJS k (k.take 8 ++ star3) s →
      t <+: s ∨
        ∃ u v w, t = u ++ v ∧ s = u ++ w ∧ k <+: w ∧ v <+: k.take 8 ∧ v ≠ [] by
    intro s t h1 h2
    exact H s.length s t le_rfl h1 h2
  intro n
  induction n with
  | zero =>
    intro s t hlen hstar hpre
    have hs : s = [] := List.length_eq_zero.1 (Nat.le_zero.1 hlen)
    subst hs
    rw [replJS_nil] at hpre
    exact Or.inl hpre
  | succ m ih =>
    intro s t hlen hstar hpre
    cases s with
    | nil =>
      rw [replJS_nil] at hpre
      exact Or.inl hpre
    | cons c t0 =>
      by_cases hp : k <+: c :: t0
      · rw [replJS_pos k _ c t0 hkne hp] at hpre
        have h9 : (k.take 8 ++ ['*']) <+:
            (k.take 8 ++ star3) ++ replJS k (k.take 8 ++ star3) (t0.drop (k.length - 1)) := by
          refine ⟨'*' :: '*' :: replJS k (k.take 8 ++ star3) (t0.drop (k.length - 1)), ?_⟩
          simp [star3]
        rcases prefixTotal hpre h9 with hle | hge
        · by_cases ht8 : t.length ≤ (k.take 8).length
          · have htp8 : t <+: k.take 8 :=
              List.prefix_of_prefix_length_le hle (List.prefix_append _ _) ht8
            cases t with
            | nil => exact Or.inl ⟨c :: t0, rfl⟩
            | cons x xs =>
              exact Or.inr ⟨[], x :: xs, c :: t0, by simp, rfl, hp, htp8, by simp⟩
          · have hlge : (k.take 8 ++ ['*']).length ≤ t.length := by
              rw [take8_len hk8] at ht8
              rw [List.length_append, take8_len hk8]
              simp only [List.length_singleton]
              omega
            have heq : t = k.take 8 ++ ['*'] := List.IsPrefix.eq_of_length_le hle hlge
            exact absurd (by rw [heq]; simp : '*' ∈ t) hstar
        · exact absurd (List.IsPrefix.mem (by simp : '*' ∈ k.take 8 ++ ['*']) hge) hstar
      · rw [replJS_neg _ _ _ _ (startsWith_false_of_not_pre k c t0 hp)] at hpre
        cases t with
        | nil => exact Or.inl ⟨c :: t0, rfl⟩
        | cons x xs =>
          rcases List.cons_prefix_cons.1 hpre with ⟨hx, hxs⟩
          have hstar' : '*' ∉ xs := fun hm => hstar (by simp [hm])
          have hlen' : t0.length ≤ m := by simpa using hlen
          rcases ih t0 xs hlen' hstar' hxs with hleft | ⟨u, v, w, h1, h2, h3, h4, h5⟩
          · exact Or.inl (List.cons_prefix_cons.2 ⟨hx, hleft⟩)
          · exact Or.inr ⟨c :: u, v, w, by simp [hx, h1], by simp [h2], h3, h4, h5⟩

lemma replJS_no_occ (k : List Char) (hk8 : 8 < k.length) (hst : '*' ∉ k) :
    ∀ s, ¬ k <:+: replJS k (k.take 8 ++ star3) s := by
  have hkne : k ≠ [] := by
    intro h
    rw [h] at hk8
    simp at hk8
  obtain ⟨c0, k', hk0⟩ : ∃ c0 k', k = c0 :: k' := by
    cases k with
    | nil => exact absurd rfl hkne
    | cons a b => exact ⟨a, b, rfl⟩
  suffices H : ∀ (n : ℕ) (s : List Char), s.length ≤ n →
      ¬ k <:+: replJS k (k.take 8 ++ star3) s by
    intro s
    exact H s.length s le_rfl
  intro n
  induction n with
  | zero =>
    intro s hlen hinf
    have hs : s = [] := List.length_eq_zero.1 (Nat.le_zero.1 hlen)
    subst hs
    rw [replJS_nil] at hinf
    exact hkne (List.infix_nil.1 hinf)
  | succ m ih =>
    intro s hlen hinf
    cases s with
    | nil =>
      rw [replJS_nil] at hinf
      exact hkne (List.infix_nil.1 hinf)
    | cons c t0 =>
      by_cases hp : k <+: c :: t0
      · rw [replJS_pos k _ c t0 hkne hp] at hinf
        have hXlen : (t0.drop (k.length - 1)).length ≤ m := by
          rw [List.length_drop]
          have : t0.length ≤ m := by simpa using hlen
          omega
        have hassoc : (k.take 8 ++ star3) ++ replJS k (k.take 8 ++ star3) (t0.drop (k.length - 1)) =
            k.take 8 ++ ('*' :: '*' :: '*' :: replJS k (k.take 8 ++ star3) (t0.drop (k.length - 1))) := by
          simp [star3]
        rw [hassoc] at hinf
        have peel : ∀ (z : List Char), k <:+: '*' :: z → k <:+: z := by
          intro z hz
          rcases List.infix_cons_iff.1 hz with hzp | hzi
          · exfalso
            rw [hk0] at hzp
            rcases List.cons_prefix_cons.1 hzp with ⟨h0, _⟩
            exact hst (by rw [hk0, h0]; simp)
          · exact hzi
        rcases infixAppendCases k (k.take 8)
            ('*' :: '*' :: '*' :: replJS k (k.take 8 ++ star3) (t0.drop (k.length - 1))) hinf with
          ⟨y, hy, hk⟩ | hrest
        · have hylen : y.length ≤ 8 := by
            have := hy.length_le
            rwa [take8_len hk8] at this
          have h1 : (y ++ ['*']) <+:
              y ++ '*' :: '*' :: '*' :: replJS k (k.take 8 ++ star3) (t0.drop (k.length - 1)) := by
            refine ⟨'*' :: '*' :: replJS k (k.take 8 ++ star3) (t0.drop (k.length - 1)), ?_⟩
            simp
          have h2 : (y ++ ['*']) <+: k := by
            refine List.prefix_of_prefix_length_le h1 hk ?_
            rw [List.length_append]
            simp only [List.length_singleton]
            omega
          exact hst (List.IsPrefix.mem (by simp : '*' ∈ y ++ ['*']) h2)
        · exact ih _ hXlen (peel _ (peel _ (peel _ hrest)))
      · rw [replJS_neg _ _ _ _ (startsWith_false_of_not_pre k c t0 hp)] at hinf
        rcases List.infix_cons_iff.1 hinf with hpre | hinf2
        · rw [hk0] at hpre
          rcases List.cons_prefix_cons.1 hpre with ⟨hc0, hk'⟩
          rw [← hk0] at hk'
          have hstar' : '*' ∉ k' := fun h => hst (by rw [hk0]; simp [h])
          rcases replJS_prefix_structure k hk8 t0 k' hstar' hk' with hl | ⟨u, v, w, h1, h2, h3, h4, h5⟩
          · exact hp (by rw [hk0, hc0]; exact List.cons_prefix_cons.2 ⟨rfl, hl⟩)
          · have hvk : v <+: k := h4.trans ⟨k.drop 8, List.take_append_drop 8 k⟩
            have hvw : v <+: w := hvk.trans h3
            obtain ⟨z, hz⟩ := hvw
            apply hp
            refine ⟨z, ?_⟩
            rw [hk0, hc0, h1, h2, ← hz]
            simp
        · exact ih t0 (by simpa using hlen) hinf2

lemma replJS_marker (k : List Char) (hkne : k ≠ []) :
    ∀ s, k <:+: s → (k.take 8 ++ star3) <:+: replJS k (k.take 8 ++ star3) s := by
  suffices H : ∀ (n : ℕ) (s : List Char), s.length ≤ n → k <:+: s →
      (k.take 8 ++ star3) <:+: replJS k (k.take 8 ++ star3) s by
    intro s
    exact H s.length s le_rfl
  intro n
  induction n with
  | zero =>
    intro s hlen hinf
    have hs : s = [] := List.length_eq_zero.1 (Nat.le_zero.1 hlen)
    subst hs
    exact absurd (List.infix_nil.1 hinf) hkne
  | succ m ih =>
    intro s hlen hinf
    cases s with
    | nil => exact absurd (List.infix_nil.1 hinf) hkne
    | cons c t0 =>
      by_cases hp : k <+: c :: t0
      · rw [replJS_pos k _ c t0 hkne hp]
        exact (List.prefix_append _ _).isInfix
      · have hi2 : k <:+: t0 := by
          rcases List.infix_cons_iff.1 hinf with h | h
          · exact absurd h hp
          · exact h
        rw [replJS_neg _ _ _ _ (startsWith_false_of_not_pre k c t0 hp)]
        exact List.infix_cons (ih t0 (by simpa using hlen) hi2)

lemma maskApiKey_eq (s k : List Char) (hkne : k ≠ []) :
    maskApiKey s k = replJS k (k.take 8 ++ star3) s := by
  have he : List.isEmpty k = false := by
    cases k with
    | nil => exact absurd rfl hkne
    | cons x xs => rfl
  simp [maskApiKey, he]

lemma maskApiKey_no_key (k s : List Char) (hk8 : 8 < k.length) (hst : '*' ∉ k) :
    isSubOf k (maskApiKey s k) = false := by
  have hkne : k ≠ [] := by
    intro h
    rw [h] at hk8
    simp at hk8
  rw [maskApiKey_eq s k hkne]
  cases h : isSubOf k (replJS k (k.take 8 ++ star3) s) with
  | false => rfl
  | true => exact absurd ((isSubOf_iff _ _).1 h) (replJS_no_occ k hk8 hst s)

lemma maskApiKey_has_marker (k s : List Char) (hkne : k ≠ [])
    (hocc : isSubOf k s = true) :
    isSubOf (k.take 8 ++ star3) (maskApiKey s k) = true := by
  rw [maskApiKey_eq s k hkne]
  exact (isSubOf_iff _ _).2 (replJS_marker k hkne s ((isSubOf_iff _ _).1 hocc))

lemma natDigitsAux_mem :
    ∀ (fz n : ℕ) (c : Char), c ∈ natDigitsAux fz n → ∃ d, d < 10 ∧ c = digitChar d := by
  intro fz
  induction fz with
  | zero => intro n c h; simp [natDigitsAux] at h
  | succ m ih =>
    intro n c h
    by_cases hn : n < 10
    · simp [natDigitsAux, hn] at h
      exact ⟨n, hn, h⟩
    · simp [natDigitsAux, hn] at h
      rcases h with h | h
      · exact ih _ _ h
      · exact ⟨n % 10, Nat.mod_lt _ (by omega), h⟩

lemma natDigits_mem (n : ℕ) (c : Char) (h : c ∈ natDigits n) :
    ∃ d, d < 10 ∧ c = digitChar d :=
  natDigitsAux_mem _ _ _ h

lemma digitChar_ne_underscore (d : ℕ) (hd : d < 10) : digitChar d ≠ '_' := by
  interval_cases d <;> decide

lemma underscore_not_in_timeoutMessage (t : ℕ) : '_' ∉ timeoutMessage t := by
  intro h
  rcases List.mem_append.1 h with h1 | h2
  · rcases List.mem_append.1 h1 with h3 | h4
    · exact absurd h3 (by decide)
    · obtain ⟨d, hd, hc⟩ := natDigits_mem t _ h4
      exact digitChar_ne_underscore d hd hc.symm
  · exact absurd h2 (by decide)

lemma jsLength_append (a b : List Char) :
    jsLength (a ++ b) = jsLength a + jsLength b := by
  simp [jsLength]

lemma jsLength_replicate (n : ℕ) (c : Char) :
    jsLength (List.replicate n c) = n * utf16Units c := by
  simp [jsLength, List.map_replicate, List.sum_replicate, smul_eq_mul]

lemma utf8ByteSize_replicate (n : ℕ) (c : Char) :
    utf8ByteSize (List.replicate n c) = n * utf8Bytes c := by
  simp [utf8ByteSize, List.map_replicate, List.sum_replicate, smul_eq_mul]

lemma withRetryGo_ok {T : Type} (fn : ℕ → Except (List Char) T) (a l c : ℕ)
    (v : T) (h : fn a = .ok v) : withRetryGo fn a l c = (.ok v, c + 1) := by
  unfold withRetryGo
  rw [h]

lemma withRetryGo_fatal {T : Type} (fn : ℕ → Except (List Char) T) (a l c : ℕ)
    (e : List Char) (h : fn a = .error e) (h2 : nonRetryable e = true) :
    withRetryGo fn a l c = (.error e, c + 1) := by
  unfold withRetryGo
  rw [h]
  simp [h2]

lemma withRetryGo_last {T : Type} (fn : ℕ → Except (List Char) T) (a c : ℕ)
    (e : List Char) (h : fn a = .error e) (h2 : nonRetryable e = false) :
    withRetryGo fn a 0 c = (.error e, c + 1) := by
  unfold withRetryGo
  rw [h]
  simp [h2]

lemma withRetryGo_step {T : Type} (fn : ℕ → Except (List Char) T) (a l c : ℕ)
    (e : List Char) (h : fn a = .error e) (h2 : nonRetryable e = false) :
    withRetryGo fn a (l + 1) c = withRetryGo fn (a + 1) l (c + 1) := by
  conv_lhs => unfold withRetryGo
  rw [h]
  simp [h2]

lemma withRetryGo_calls {T : Type} (fn : ℕ → Except (List Char) T) :
    ∀ (l a c : ℕ), (withRetryGo fn a l c).2 ≤ c + l + 1 := by
  intro l
  induction l with
  | zero =>
    intro a c
    cases hf : fn a with
    | ok v => rw [withRetryGo_ok fn a 0 c v hf]
    | error e =>
      cases hnr : nonRetryable e with
      | true => rw [withRetryGo_fatal fn a 0 c e hf hnr]
      | false => rw [withRetryGo_last fn a c e hf hnr]
  | succ m ih =>
    intro a c
    cases hf : fn a with
    | ok v =>
      rw [withRetryGo_ok fn a (m + 1) c v hf]
      simp
    | error e =>
      cases hnr : nonRetryable e with
      | true =>
        rw [withRetryGo_fatal fn a (m + 1) c e hf hnr]
        simp
      | false =>
        rw [withRetryGo_step fn a m c e hf hnr]
        have := ih (a + 1) (c + 1)
        omega

lemma withRetryGo_error_src {T : Type} (fn : ℕ → Except (List Char) T) :
    ∀ (l a c : ℕ) (e : List Char),
      (withRetryGo fn a l c).1 = .error e → ∃ i, fn i = .error e := by
  intro l
  induction l with
  | zero =>
    intro a c e h
    cases hf : fn a with
    | ok v => rw [withRetryGo_ok fn a 0 c v hf] at h; simp at h
    | error e' =>
      cases hnr : nonRetryable e' with
      | true =>
        rw [withRetryGo_fatal fn a 0 c e' hf hnr] at h
        simp at h
        exact ⟨a, by rw [hf, h]⟩
      | false =>
        rw [withRetryGo_last fn a c e' hf hnr] at h
        simp at h
        exact ⟨a, by rw [hf, h]⟩
  | succ m ih =>
    intro a c e h
    cases hf : fn a with
    | ok v => rw [withRetryGo_ok fn a (m + 1) c v hf] at h; simp at h
    | error e' =>
      cases hnr : nonRetryable e' with
      | true =>
        rw [withRetryGo_fatal fn a (m + 1) c e' hf hnr] at h
        simp at h
        exact ⟨a, by rw [hf, h]⟩
      | false =>
        rw [withRetryGo_step fn a m c e' hf hnr] at h
        exact ih (a + 1) (c + 1) e h

lemma withRetryGo_exhaust {T : Type} (fn : ℕ → Except (List Char) T)
    (err : ℕ → List Char) :
    ∀ (l a c : ℕ),
      (∀ i, a ≤ i → i ≤ a + l → fn i = .error (err i) ∧ nonRetryable (err i) = false) →
      withRetryGo fn a l c = (.error (err (a + l)), c + l + 1) := by
  intro l
  induction l with
  | zero =>
    intro a c h
    have ha := h a le_rfl (by omega)
    rw [withRetryGo_last fn a c (err a) ha.1 ha.2]
    simp
  | succ m ih =>
    intro a c h
    have ha := h a le_rfl (by omega)
    rw [withRetryGo_step fn a m c (err a) ha.1 ha.2]
    have h' : ∀ i, a + 1 ≤ i → i ≤ a + 1 + m →
        fn i = .error (err i) ∧ nonRetryable (err i) = false := by
      intro i hi1 hi2
      exact h i (by omega) (by omega)
    rw [ih (a + 1) (c + 1) h']
    have e1 : a + 1 + m = a + (m + 1) := by omega
    have e2 : c + 1 + m + 1 = c + (m + 1) + 1 := by omega
    rw [e1, e2]

lemma mem_replaceChar {x : Char} (c : Char) (r : List Char) :
    ∀ (s : List Char), x ∈ replaceChar c r s → x ∈ r ∨ (x ∈ s ∧ x ≠ c) := by
  intro s
  induction s with
  | nil => intro h; simp [replaceChar] at h
  | cons y t ih =>
    intro h
    simp only [replaceChar] at h
    rcases List.mem_append.1 h with h1 | h2
    · by_cases hyc : y = c
      · simp [hyc] at h1
        exact Or.inl h1
      · simp [hyc] at h1
        exact Or.inr ⟨by simp [h1], by rw [h1]; exact hyc⟩
    · rcases ih h2 with h3 | ⟨hm, hne⟩
      · exact Or.inl h3
      · exact Or.inr ⟨by simp [hm], hne⟩

lemma replaceChar_not_mem (c : Char) (r : List Char) :
    ∀ (s : List Char), c ∉ s → replaceChar c r s = s := by
  intro s
  induction s with
  | nil => intro _; rfl
  | cons y t ih =>
    intro h
    have hyc : ¬ (y == c) = true := by
      intro hb
      exact h (by rw [eq_of_beq hb]; exact List.mem_cons_self c t)
    simp only [replaceChar, if_neg hyc]
    rw [ih (fun hm => h (by simp [hm]))]
    rfl

lemma jsLength_replaceChar_self (c : Char) (r : List Char) :
    ∀ (n : ℕ), jsLength (replaceChar c r (List.replicate n c)) = n * jsLength r := by
  intro n
  induction n with
  | zero => simp [replaceChar, jsLength]
  | succ m ih =>
    rw [List.replicate_succ]
    simp only [replaceChar, beq_self_eq_true, if_pos]
    rw [jsLength_append, ih]
    ring

/-- C1 (counterexample): a timeout failure carries no HTTP status at all, yet
with the legal configuration `timeout = 4040` its message
"Request timeout after 4040ms" contains the substring "404", so `withRetry`
surfaces it after a single attempt instead of retrying until the budget is
exhausted — refuting the claim that every failure whose associated status
code is not 400/401/403/404 (including timeouts) is retried. -/
theorem timeout4040_surfaced_without_retry :
    request cfg4040 (fun _ => FetchOutcome.abortError (T := ℕ)) =
      (.error "Request timeout after 4040ms".toList, 1) ∧
    nonRetryable "Request timeout after 4040ms".toList = true :=
  ⟨rfl, rfl⟩

/-- C1 (amended): `withRetry` classifies purely by message text: a failure
whose message contains "400", "401", "403" or "404" as a substring is
surfaced immediately after one invocation, and a run of failures whose
messages avoid all four substrings is retried until the attempt budget is
exhausted, surfacing the final attempt's failure.  Failures produced from
an HTTP status do carry the status digits in their (unmasked) message,
which is why genuine 400/401/403/404 responses surface immediately. -/
theorem withRetry_classifies_by_message_substring {T : Type}
    (fn : ℕ → Except (List Char) T) :
    (∀ e, fn 0 = .error e → nonRetryable e = true →
      withRetry fn = (.error e, 1)) ∧
    (∀ err : ℕ → List Char,
      (∀ i, i ≤ MAX_RETRIES → fn i = .error (err i) ∧ nonRetryable (err i) = false) →
      withRetry fn = (.error (err MAX_RETRIES), MAX_RETRIES + 1)) ∧
    (∀ (status : ℕ) (statusText : List Char) (em : Option (List Char)),
      isSubOf (natDigits status) (apiErrorMessage status statusText em) = true) := by
  refine ⟨?_, ?_, ?_⟩
  · intro e h h2
    exact withRetryGo_fatal fn 0 MAX_RETRIES 0 e h h2
  · intro err h
    have := withRetryGo_exhaust fn err MAX_RETRIES 0 0
      (by intro i h1 h2; exact h i (by simpa using h2))
    exact this
  · intro status statusText em
    refine (isSubOf_iff _ _).2
      ⟨"API request failed: ".toList,
        [' '] ++ statusText ++
          (match em with
            | some m => if List.isEmpty m then [] else " - ".toList ++ m
            | none => []), ?_⟩
    simp [apiErrorMessage]

/-- Witness for C1's amended theorem at concrete inputs: a 401 message is
surfaced after exactly one invocation, and a message avoiding the four
substrings is retried to exhaustion (4 invocations). -/
theorem withRetry_classifies_by_message_substring_witness :
    withRetry (fun _ =>
        (Except.error (apiErrorMessage 401 "Unauthorized".toList none) :
          Except (List Char) ℕ)) =
      (.error (apiErrorMessage 401 "Unauthorized".toList none), 1) ∧
    withRetry (fun _ => (Except.error "boom".toList : Except (List Char) ℕ)) =
      (.error "boom".toList, 4) := by
  constructor
  · exact (withRetry_classifies_by_message_substring _).1 _ rfl rfl
  · exact (withRetry_classifies_by_message_substring
      (fun _ => (Except.error "boom".toList : Except (List Char) ℕ))).2.1
      (fun _ => "boom".toList) (fun i _ => ⟨rfl, rfl⟩)

/-- C5: `withRetry` with the default budget invokes the wrapped operation at
most 4 times, and when the first two invocations fail retryably and the
third succeeds, exactly three invocations occur and the third result is
returned. -/
theorem withRetry_attempt_budget {T : Type} (fn : ℕ → Except (List Char) T) :
    (withRetry fn).2 ≤ 4 ∧
    (∀ e0 e1 v, fn 0 = .error e0 → nonRetryable e0 = false →
      fn 1 = .error e1 → nonRetryable e1 = false →
      fn 2 = .ok v → withRetry fn = (.ok v, 3)) := by
  constructor
  · exact withRetryGo_calls fn MAX_RETRIES 0 0
  · intro e0 e1 v h0 hn0 h1 hn1 h2
    calc withRetryGo fn 0 MAX_RETRIES 0
        = withRetryGo fn 1 2 1 := withRetryGo_step fn 0 2 0 e0 h0 hn0
      _ = withRetryGo fn 2 1 2 := withRetryGo_step fn 1 1 1 e1 h1 hn1
      _ = (.ok v, 3) := withRetryGo_ok fn 2 1 2 v h2

/-- Witness for C5 with the spec's own scenario: status 500 on the first two
attempts, success on the third. -/
theorem withRetry_attempt_budget_witness :
    withRetry (fun i => if i < 2 then
        (Except.error (apiErrorMessage 500 "Internal Server Error".toList none) :
          Except (List Char) ℕ)
      else Except.ok 42) = (.ok 42, 3) ∧
    (withRetry (fun i => if i < 2 then
        (Except.error (apiErrorMessage 500 "Internal Server Error".toList none) :
          Except (List Char) ℕ)
      else Except.ok 42)).2 ≤ 4 := by
  have h := withRetry_attempt_budget (fun i => if i < 2 then
      (Except.error (apiErrorMessage 500 "Internal Server Error".toList none) :
        Except (List Char) ℕ)
    else Except.ok 42)
  exact ⟨h.2 _ _ 42 rfl rfl rfl rfl rfl, h.1⟩

/-- C6: the code sends the store request to `{baseURL}/v1/memories/memories`
and the health check to `{baseURL}/v1/health` — not to `{baseURL}/v1/memories`
and `{baseURL}/health` as the spec, the repository's own tests
(tests/client.test.ts line 193) and its CHANGELOG 0.2.0 entry ("all memory
API endpoints were using wrong paths") require.  The methods (POST/GET) do
match.  Evaluated at the tests' base URL. -/
theorem memory_endpoint_paths :
    requestUrl "https://api.memoryrelay.net".toList storeMemoryMethodPath.2 =
      "https://api.memoryrelay.net/v1/memories/memories".toList ∧
    storeMemoryMethodPath.1 = "POST".toList ∧
    requestUrl "https://api.memoryrelay.net".toList healthCheckMethodPath.2 =
      "https://api.memoryrelay.net/v1/health".toList ∧
    healthCheckMethodPath.1 = "GET".toList ∧
    requestUrl "https://api.memoryrelay.net".toList storeMemoryMethodPath.2 ≠
      "https://api.memoryrelay.net/v1/memories".toList ∧
    requestUrl "https://api.memoryrelay.net".toList healthCheckMethodPath.2 ≠
      "https://api.memoryrelay.net/health".toList :=
  ⟨rfl, rfl, rfl, rfl, by decide, by decide⟩

/-- C2 (counterexample): for a secret of 8 or fewer characters the
replacement `secret.substring(0, 8) + '***'` begins with the entire secret,
so the masked output still contains it: `maskApiKey("key", "key")` returns
"key***", which contains "key" — refuting "zero occurrences of k" for
arbitrary non-empty secrets. -/
theorem maskApiKey_short_key_leaks :
    maskApiKey "key".toList "key".toList = "key***".toList ∧
    isSubOf "key".toList (maskApiKey "key".toList "key".toList) = true :=
  ⟨rfl, rfl⟩

/-- C2 (amended): for a secret of MORE than 8 characters that contains no
'*' (and no regex metacharacters, so that `new RegExp(secret,'g')` matches
literally), redacting a string containing the secret yields a string with
zero occurrences of the secret and at least one occurrence of the secret's
first 8 characters followed by "***"; the model is total, so no exception
is raised on this fragment. -/
theorem maskApiKey_long_key_redacts (k s : List Char) (h8 : 8 < k.length)
    (hst : '*' ∉ k) (hocc : isSubOf k s = true) :
    isSubOf k (maskApiKey s k) = false ∧
    isSubOf (k.take 8 ++ star3) (maskApiKey s k) = true := by
  have hkne : k ≠ [] := by
    intro h
    rw [h] at h8
    simp at h8
  exact ⟨maskApiKey_no_key k s h8 hst, maskApiKey_has_marker k s hkne hocc⟩

/-- Witness for C2's amended theorem at a concrete 18-character key. -/
theorem maskApiKey_long_key_redacts_witness :
    8 < "mem_live_abc123xyz".toList.length ∧
    '*' ∉ "mem_live_abc123xyz".toList ∧
    isSubOf "mem_live_abc123xyz".toList
      "Bearer mem_live_abc123xyz rejected".toList = true ∧
    isSubOf "mem_live_abc123xyz".toList
      (maskApiKey "Bearer mem_live_abc123xyz rejected".toList
        "mem_live_abc123xyz".toList) = false ∧
    isSubOf ("mem_live_abc123xyz".toList.take 8 ++ star3)
      (maskApiKey "Bearer mem_live_abc123xyz rejected".toList
        "mem_live_abc123xyz".toList) = true := by
  refine ⟨by decide, by decide, rfl, ?_, ?_⟩
  · exact (maskApiKey_long_key_redacts "mem_live_abc123xyz".toList
      "Bearer mem_live_abc123xyz rejected".toList (by decide) (by decide) rfl).1
  · exact (maskApiKey_long_key_redacts "mem_live_abc123xyz".toList
      "Bearer mem_live_abc123xyz rejected".toList (by decide) (by decide) rfl).2

/-- C3 (counterexample): with the 8-character API key "secret12", a 401
response whose error body echoes the key produces the raised message
"API request failed: 401 Unauthorized - secret12******" — the double-applied
mask replaces the key by `key.substring(0,8) + '***'`, which still contains
the whole key, so the configured API key DOES occur in the raised error
message. -/
theorem request_error_contains_short_key :
    request cfgShort
        (fun _ => FetchOutcome.httpError (T := ℕ) 401 "Unauthorized".toList
          (some "secret12".toList)) =
      (.error "API request failed: 401 Unauthorized - secret12******".toList, 1) ∧
    isSubOf cfgShort.apiKey
      "API request failed: 401 Unauthorized - secret12******".toList = true :=
  ⟨rfl, rfl⟩

/-- C3 (amended): for every configuration whose API key is longer than 8
characters, contains no '*', and contains '_' (as every key accepted by the
config loader does — keys must start with "mem_"; regex-metacharacter-free
so the replacement is literal), the message of every failure raised out of
`request` contains no occurrence of the key: the status and network paths
are masked on every raise, and the timeout message contains no '_' at
all. -/
theorem request_error_never_contains_long_key (cfg : ClientConfig)
    (outs : ℕ → FetchOutcome ℕ) (e : List Char)
    (h8 : 8 < cfg.apiKey.length) (hst : '*' ∉ cfg.apiKey)
    (hus : '_' ∈ cfg.apiKey)
    (h : (request cfg outs).1 = .error e) :
    isSubOf cfg.apiKey e = false := by
  obtain ⟨i, hi⟩ :=
    withRetryGo_error_src (fun i => attemptRun cfg (outs i)) MAX_RETRIES 0 0 e h
  cases ho : outs i with
  | success d =>
    rw [ho] at hi
    simp [attemptRun] at hi
  | httpError status statusText errMessage =>
    rw [ho] at hi
    simp only [attemptRun, Except.error.injEq] at hi
    rw [← hi]
    exact maskApiKey_no_key cfg.apiKey _ h8 hst
  | rateLimited retryAfter =>
    rw [ho] at hi
    simp only [attemptRun, Except.error.injEq] at hi
    rw [← hi]
    exact maskApiKey_no_key cfg.apiKey _ h8 hst
  | abortError =>
    rw [ho] at hi
    simp only [attemptRun, Except.error.injEq] at hi
    rw [← hi]
    cases hsub : isSubOf cfg.apiKey (timeoutMessage cfg.timeout) with
    | false => rfl
    | true =>
      have hinf := (isSubOf_iff _ _).1 hsub
      exact absurd (hinf.subset hus) (underscore_not_in_timeoutMessage cfg.timeout)
  | networkError m =>
    rw [ho] at hi
    simp only [attemptRun, Except.error.injEq] at hi
    rw [← hi]
    exact maskApiKey_no_key cfg.apiKey _ h8 hst

/-- Witness for C3's amended theorem: the tests' configuration, a 401 whose
body does not echo the key. -/
theorem request_error_never_contains_long_key_witness :
    (request cfgTest
        (fun _ => FetchOutcome.httpError (T := ℕ) 401 "Unauthorized".toList
          (some "Invalid API key".toList))).1 =
      .error "API request failed: 401 Unauthorized - Invalid API key".toList ∧
    isSubOf cfgTest.apiKey
      "API request failed: 401 Unauthorized - Invalid API key".toList = false := by
  refine ⟨rfl, ?_⟩
  exact request_error_never_contains_long_key cfgTest
    (fun _ => FetchOutcome.httpError 401 "Unauthorized".toList
      (some "Invalid API key".toList))
    "API request failed: 401 Unauthorized - Invalid API key".toList
    (by decide) (by decide) (by decide) rfl

/-- C4 (counterexample): a 429 carrying `Retry-After: 4` computes a 4000 ms
wait, so the raised message "Rate limited: 429 - Retry after 4000ms"
contains the substring "400" and `withRetry` classifies it as
NON-retryable: the request is surfaced after one attempt instead of being
re-attempted, refuting the claim that every 429 failure is converted into
a retryable failure. -/
theorem rateLimit_retryAfter4_not_retried :
    request cfgTest
        (fun i => if i = 0 then FetchOutcome.rateLimited (some "4".toList)
          else FetchOutcome.success (0 : ℕ)) =
      (.error "Rate limited: 429 - Retry after 4000ms".toList, 1) ∧
    isSubOf "400".toList "Rate limited: 429 - Retry after 4000ms".toList = true ∧
    rateLimitWaitMs (some "4".toList) = some 4000 :=
  ⟨rfl, rfl, rfl⟩

/-- C4 (amended): on a 429 the executor waits `parseInt(header) * 1000` ms
when the header parses, 5000 ms when the header is absent; a PRESENT but
unparsable header yields NaN (effective sleep 0), not the 5000 ms fallback.
The raised failure is retryable exactly when its message text avoids the
substrings "400"/"401"/"403"/"404"; in that case the retry loop re-attempts
the request and a following success is returned on the second attempt.
(Waits of 4, 40, 400... seconds embed "400" in the message and are
surfaced immediately, as the counterexample shows.) -/
theorem rateLimit_handling :
    rateLimitWaitMs none = some 5000 ∧
    (∀ (s : List Char) (n : ℤ), jsParseInt s = some n →
      rateLimitWaitMs (some s) = some (n * 1000)) ∧
    (∀ s : List Char, List.isEmpty s = false → jsParseInt s = none →
      rateLimitWaitMs (some s) = none ∧
      effectiveSleepMs (rateLimitWaitMs (some s)) = 0) ∧
    (∀ (cfg : ClientConfig) (v : ℕ) (hdr : Option (List Char)),
      nonRetryable (maskApiKey (rateLimitMessage hdr) cfg.apiKey) = false →
      request cfg (fun i => if i = 0 then FetchOutcome.rateLimited hdr
        else FetchOutcome.success v) = (.ok v, 2)) := by
  refine ⟨rfl, ?_, ?_, ?_⟩
  · intro s n h
    cases he : List.isEmpty s with
    | true =>
      have hs : s = [] := List.isEmpty_iff.1 he
      subst hs
      simp [show jsParseInt ([] : List Char) = none from rfl] at h
    | false =>
      simp [rateLimitWaitMs, he, h]
  · intro s he hn
    refine ⟨?_, ?_⟩
    · simp [rateLimitWaitMs, he, hn]
    · simp [rateLimitWaitMs, he, hn, effectiveSleepMs]
  · intro cfg v hdr hnr
    have h0 : (fun i => attemptRun cfg
        (if i = 0 then FetchOutcome.rateLimited hdr else FetchOutcome.success v)) 0 =
        .error (maskApiKey (rateLimitMessage hdr) cfg.apiKey) := rfl
    calc withRetryGo (fun i => attemptRun cfg
          (if i = 0 then FetchOutcome.rateLimited hdr else FetchOutcome.success v))
          0 MAX_RETRIES 0
        = withRetryGo (fun i => attemptRun cfg
            (if i = 0 then FetchOutcome.rateLimited hdr else FetchOutcome.success v))
            1 2 1 := withRetryGo_step _ 0 2 0 _ h0 hnr
      _ = (.ok v, 2) := withRetryGo_ok _ 1 2 1 v rfl

/-- Witness for C4's amended theorem: a parsing header ("7" gives 7000 ms),
an unparsable header ("xyz" gives NaN and a 0 ms sleep), and an absent
header whose 5000 ms message is retryable, so the following success is
returned on the second attempt. -/
theorem rateLimit_handling_witness :
    rateLimitWaitMs (some "7".toList) = some 7000 ∧
    (rateLimitWaitMs (some "xyz".toList) = none ∧
      effectiveSleepMs (rateLimitWaitMs (some "xyz".toList)) = 0) ∧
    request cfgTest
        (fun i => if i = 0 then FetchOutcome.rateLimited none
          else FetchOutcome.success (5 : ℕ)) = (.ok 5, 2) := by
  refine ⟨?_, ?_, ?_⟩
  · exact rateLimit_handling.2.1 "7".toList 7 rfl
  · exact rateLimit_handling.2.2.1 "xyz".toList rfl rfl
  · exact rateLimit_handling.2.2.2 cfgTest 5 none rfl

/-- C7: every operation that calls the size guard (store, search, update,
create entity) accepts content of up to MAX_CONTENT_SIZE = 51200 UTF-16
code units and performs the request unchanged, and for anything longer
raises the size-limit failure with 0 network attempts; the failure message
references the maximum size (contains "51200"). -/
theorem content_size_guard (cfg : ClientConfig) (outs : ℕ → FetchOutcome ℕ)
    (c mid : List Char) :
    (jsLength c ≤ MAX_CONTENT_SIZE →
      storeMemory cfg c outs = request cfg outs ∧
      searchMemories cfg c outs = request cfg outs ∧
      updateMemory cfg mid c outs = request cfg outs ∧
      createEntity cfg c outs = request cfg outs) ∧
    (MAX_CONTENT_SIZE < jsLength c →
      storeMemory cfg c outs = (.error sizeErrorMessage, 0) ∧
      searchMemories cfg c outs = (.error sizeErrorMessage, 0) ∧
      updateMemory cfg mid c outs = (.error sizeErrorMessage, 0) ∧
      createEntity cfg c outs = (.error sizeErrorMessage, 0)) ∧
    isSubOf "51200".toList sizeErrorMessage = true ∧
    MAX_CONTENT_SIZE = 51200 := by
  refine ⟨?_, ?_, rfl, rfl⟩
  · intro h
    have hv : validateContentSize c = .ok () := by
      simp [validateContentSize, Nat.not_lt.2 h]
    exact ⟨by simp [storeMemory, hv], by simp [searchMemories, hv],
      by simp [updateMemory, hv], by simp [createEntity, hv]⟩
  · intro h
    have hv : validateContentSize c = .error sizeErrorMessage := by
      simp [validateContentSize, h]
    exact ⟨by simp [storeMemory, hv], by simp [searchMemories, hv],
      by simp [updateMemory, hv], by simp [createEntity, hv]⟩

/-- Witness for C7 at the boundary: exactly 51200 code units pass, 51201
raise with zero attempts. -/
theorem content_size_guard_witness :
    jsLength content50k ≤ MAX_CONTENT_SIZE ∧
    MAX_CONTENT_SIZE < jsLength content50k1 ∧
    storeMemory cfgTest content50k (fun _ => FetchOutcome.success 0) =
      request cfgTest (fun _ => FetchOutcome.success 0) ∧
    storeMemory cfgTest content50k1 (fun _ => FetchOutcome.success 0) =
      (.error sizeErrorMessage, 0) := by
  have hu : utf16Units 'a' = 1 := rfl
  have h1 : jsLength content50k = 51200 := by
    rw [content50k, jsLength_replicate, hu, Nat.mul_one]
  have h2 : jsLength content50k1 = 51201 := by
    rw [content50k1, jsLength_replicate, hu, Nat.mul_one]
  have hle : jsLength content50k ≤ MAX_CONTENT_SIZE := by rw [h1]; decide
  have hlt : MAX_CONTENT_SIZE < jsLength content50k1 := by rw [h2]; decide
  exact ⟨hle, hlt,
    ((content_size_guard cfgTest (fun _ => FetchOutcome.success 0) content50k []).1 hle).1,
    ((content_size_guard cfgTest (fun _ => FetchOutcome.success 0) content50k1 []).2.1 hlt).1⟩

/-- C8: `healthCheck` always returns a structured value whose status is
"healthy" or "unhealthy"; when the underlying request fails (after the
retry loop finishes) the result is status "unhealthy" with a message
containing "failed", and on success it is status "healthy". -/
theorem healthCheck_structured (cfg : ClientConfig) (outs : ℕ → FetchOutcome ℕ) :
    ((healthCheck cfg outs).status = "healthy".toList ∨
      (healthCheck cfg outs).status = "unhealthy".toList) ∧
    (∀ e, (request cfg outs).1 = .error e →
      healthCheck cfg outs =
        ⟨"unhealthy".toList, "API connection failed: ".toList ++ e⟩ ∧
      isSubOf "failed".toList (healthCheck cfg outs).message = true) ∧
    (∀ v, (request cfg outs).1 = .ok v →
      healthCheck cfg outs = ⟨"healthy".toList, "API connection successful".toList⟩) := by
  refine ⟨?_, ?_, ?_⟩
  · cases h : (request cfg outs).1 with
    | ok v => exact Or.inl (by simp [healthCheck, h])
    | error e => exact Or.inr (by simp [healthCheck, h])
  · intro e h
    have hh : healthCheck cfg outs =
        ⟨"unhealthy".toList, "API connection failed: ".toList ++ e⟩ := by
      simp [healthCheck, h]
    refine ⟨hh, ?_⟩
    rw [hh]
    exact isSubOf_append_left "failed".toList "API connection failed: ".toList e rfl
  · intro v h
    simp [healthCheck, h]

/-- Witness for C8: a server timing out on every attempt exhausts the
4-attempt budget and yields an unhealthy status whose message contains
"failed"; a succeeding request yields the healthy status. -/
theorem healthCheck_structured_witness :
    (request cfgTest (fun _ => FetchOutcome.abortError (T := ℕ))).1 =
      .error "Request timeout after 5000ms".toList ∧
    (request cfgTest (fun _ => FetchOutcome.abortError (T := ℕ))).2 = 4 ∧
    healthCheck cfgTest (fun _ => FetchOutcome.abortError (T := ℕ)) =
      ⟨"unhealthy".toList,
        "API connection failed: Request timeout after 5000ms".toList⟩ ∧
    isSubOf "failed".toList
      (healthCheck cfgTest (fun _ => FetchOutcome.abortError (T := ℕ))).message = true ∧
    healthCheck cfgTest (fun _ => FetchOutcome.success (0 : ℕ)) =
      ⟨"healthy".toList, "API connection successful".toList⟩ := by
  have h := healthCheck_structured cfgTest (fun _ => FetchOutcome.abortError (T := ℕ))
  have h2 := healthCheck_structured cfgTest (fun _ => FetchOutcome.success (0 : ℕ))
  refine ⟨rfl, rfl, ?_, ?_, ?_⟩
  · exact (h.2.1 "Request timeout after 5000ms".toList rfl).1
  · exact (h.2.1 "Request timeout after 5000ms".toList rfl).2
  · exact h2.2.2 0 rfl

/-- C9: the size guard compares only the UTF-16 code-unit count against
51200: acceptance depends only on `jsLength` (any string of at most 51200
code units passes, whatever its UTF-8 byte size — e.g. 51200 copies of
U+4E00 occupy 153600 UTF-8 bytes and pass), while the failure message
nonetheless states the limit in "bytes". -/
theorem size_guard_counts_utf16_units :
    (∀ s, jsLength s ≤ MAX_CONTENT_SIZE → validateContentSize s = .ok ()) ∧
    (∀ s t, jsLength s = jsLength t →
      validateContentSize s = validateContentSize t) ∧
    (validateContentSize cjkBig = .ok () ∧ utf8ByteSize cjkBig = 153600 ∧
      MAX_CONTENT_SIZE < utf8ByteSize cjkBig) ∧
    isSubOf " bytes".toList sizeErrorMessage = true := by
  have hone : utf16Units (Char.ofNat 19968) = 1 := rfl
  have hthree : utf8Bytes (Char.ofNat 19968) = 3 := rfl
  have hjs : jsLength cjkBig = 51200 := by
    rw [cjkBig, jsLength_replicate, hone, Nat.mul_one]
  have hb : utf8ByteSize cjkBig = 153600 := by
    rw [cjkBig, utf8ByteSize_replicate, hthree]
  refine ⟨?_, ?_, ⟨?_, hb, ?_⟩, rfl⟩
  · intro s h
    simp [validateContentSize, Nat.not_lt.2 h]
  · intro s t h
    simp [validateContentSize, h]
  · have hnl : ¬ (MAX_CONTENT_SIZE < jsLength cjkBig) := by rw [hjs]; decide
    simp [validateContentSize, hnl]
  · rw [hb]
    decide

/-- Witness for C9 at small inputs. -/
theorem size_guard_counts_utf16_units_witness :
    jsLength "hello".toList ≤ MAX_CONTENT_SIZE ∧
    validateContentSize "hello".toList = .ok () ∧
    validateContentSize "ab".toList = validateContentSize "cd".toList := by
  refine ⟨by decide, ?_, ?_⟩
  · exact size_guard_counts_utf16_units.1 "hello".toList (by decide)
  · exact size_guard_counts_utf16_units.2.1 "ab".toList "cd".toList rfl

/-- C10: the output of `sanitizeHtml` never contains a raw '<', '>', '"',
apostrophe or '/' — each is replaced by its HTML entity — and the entity
name validated to at most 200 characters BEFORE escaping can exceed that
bound after escaping: 200 slashes pass validation and escape to 1200
characters. -/
theorem sanitizeHtml_removes_delimiters :
    (∀ s : List Char, (sanitizeHtml s).all
      (fun c => !(c == '<' || c == '>' || c == dquote || c == apos || c == '/')) = true) ∧
    entityNameValidate slashName = true ∧
    jsLength slashName ≤ 200 ∧
    200 < jsLength (sanitizeHtml slashName) := by
  have hnotmem : ∀ (c : Char) (r : List Char), c ≠ '/' →
      replaceChar c r slashName = slashName := by
    intro c r hc
    refine replaceChar_not_mem c r slashName ?_
    intro hm
    unfold slashName at hm
    rcases List.mem_replicate.1 hm with ⟨-, h2⟩
    exact hc h2
  have hl : jsLength slashName = 200 := by
    rw [slashName, jsLength_replicate]
    rfl
  have hslash : jsLength (sanitizeHtml slashName) = 1200 := by
    unfold sanitizeHtml
    rw [hnotmem '&' "&amp;".toList (by decide), hnotmem '<' "&lt;".toList (by decide),
      hnotmem '>' "&gt;".toList (by decide), hnotmem dquote "&quot;".toList (by decide),
      hnotmem apos "&#x27;".toList (by decide)]
    rw [show slashName = List.replicate 200 '/' from rfl, jsLength_replaceChar_self]
    rfl
  refine ⟨?_, ?_, by rw [hl], by rw [hslash]; decide⟩
  · intro s
    rw [List.all_eq_true]
    intro x hx
    have hA : ∀ y ∈ "&#x2F;".toList,
        (!(y == '<' || y == '>' || y == dquote || y == apos || y == '/')) = true := by decide
    have hB : ∀ y ∈ "&#x27;".toList,
        (!(y == '<' || y == '>' || y == dquote || y == apos || y == '/')) = true := by decide
    have hC : ∀ y ∈ "&quot;".toList,
        (!(y == '<' || y == '>' || y == dquote || y == apos || y == '/')) = true := by decide
    have hD : ∀ y ∈ "&gt;".toList,
        (!(y == '<' || y == '>' || y == dquote || y == apos || y == '/')) = true := by decide
    have hE : ∀ y ∈ "&lt;".toList,
        (!(y == '<' || y == '>' || y == dquote || y == apos || y == '/')) = true := by decide
    have hF : ∀ y ∈ "&amp;".toList,
        (!(y == '<' || y == '>' || y == dquote || y == apos || y == '/')) = true := by decide
    simp only [sanitizeHtml] at hx
    rcases mem_replaceChar _ _ _ hx with h | ⟨hx1, hne6⟩
    · exact hA x h
    rcases mem_replaceChar _ _ _ hx1 with h | ⟨hx2, hne5⟩
    · exact hB x h
    rcases mem_replaceChar _ _ _ hx2 with h | ⟨hx3, hne4⟩
    · exact hC x h
    rcases mem_replaceChar _ _ _ hx3 with h | ⟨hx4, hne3⟩
    · exact hD x h
    rcases mem_replaceChar _ _ _ hx4 with h | ⟨hx5, hne2⟩
    · exact hE x h
    rcases mem_replaceChar _ _ _ hx5 with h | ⟨hx6, hne1⟩
    · exact hF x h
    · simp [hne2, hne3, hne4, hne5, hne6]
  · simp [entityNameValidate, hl]
